import Mathlib

/-!
Verification of the find-a-path skill-analysis core.

The repository's client (`src/client/app/page.tsx`) and the spec describe a
scoring / ranking / recommendation pipeline served by a FastAPI backend.
The backend implementation file (`server/main.py`) is not present in the
repository snapshot, so the core components (Similarity Scorer, Strength
Classifier, Ranker, Recommendation Engine, request validation, response
serialization) are modelled from the spec; the client-side assembly and
error handling (`handleUpload`) are embedded from `page.tsx`.

Scores are modelled as rationals (the pipeline's arithmetic is clamping,
sorting, and means of finitely many values).
-/

namespace FindAPath

/-- Modelled from the spec: (§3) a Skill is a normalized (trimmed,
case-folded) string token. -/
def normalize (s : String) : String := s.trim.toLower

/-- Modelled from the spec: (§3) a category definition with a name and a
canonical set of skills. -/
structure CategoryDefinition where
  name : String
  canonicalSkills : List String
deriving Repr, DecidableEq

/-- Modelled from the spec: (§3) the discrete strength label. -/
inductive Strength where
  | Weak
  | Moderate
  | Strong
deriving Repr, DecidableEq

/-- Numeric rank of a strength label, used to state monotonicity. -/
def Strength.rank : Strength → Nat
  | .Weak => 0
  | .Moderate => 1
  | .Strong => 2

/-- Modelled from the spec: (§4.3) the Strength Classifier.
`score ≥ 0.75 → Strong`; `0.5 ≤ score < 0.75 → Moderate`;
`score < 0.5 → Weak`. -/
def classify (score : ℚ) : Strength :=
  if 3/4 ≤ score then .Strong
  else if 1/2 ≤ score then .Moderate
  else .Weak

/-- Modelled from the spec: (§4.2) clamp a similarity from [-1,1] into
[0,1] (negative similarity treated as no match). -/
def clamp01 (q : ℚ) : ℚ :=
  if q < 0 then 0 else if 1 < q then 1 else q

/-- Descending order on rationals, used to pick the top similarities. -/
def qGe (a b : ℚ) : Prop := b ≤ a

instance : DecidableRel qGe := fun a b => inferInstanceAs (Decidable (b ≤ a))

instance : IsTotal ℚ qGe := ⟨fun a b => (le_total b a).imp id id⟩

instance : IsTrans ℚ qGe := ⟨fun _ _ _ h h' => le_trans h' h⟩

/-- Modelled from the spec: (§4.2) the Similarity Scorer's aggregation.
Clamp each per-skill similarity into [0,1], then take the mean of the
top-3 clamped similarities (all of them when fewer than 3 are supplied);
zero skills give score 0. -/
def categoryScore (sims : List ℚ) : ℚ :=
  if sims.isEmpty then 0
  else
    let clamped := sims.map clamp01
    let top := (clamped.insertionSort qGe).take 3
    top.sum / top.length

/-- Modelled from the spec: (§3) one category's scored result. -/
structure CategoryScore where
  category : String
  score : ℚ
  strength : Strength
deriving Repr, DecidableEq

/-- Modelled from the spec: (§3) one entry of `topCategories`. -/
structure TopCat where
  category : String
  score : ℚ
deriving Repr, DecidableEq

/-- Modelled from the spec: (§4.4) the Ranker's order — descending by
score, ties broken alphabetically by category name. -/
def byScoreThenName (a b : TopCat) : Prop :=
  b.score < a.score ∨ (a.score = b.score ∧ a.category ≤ b.category)

instance : DecidableRel byScoreThenName := fun a b =>
  inferInstanceAs (Decidable (b.score < a.score ∨ (a.score = b.score ∧ a.category ≤ b.category)))

instance : IsTotal TopCat byScoreThenName := by
  constructor
  intro a b
  rcases lt_trichotomy a.score b.score with h | h | h
  · exact Or.inr (Or.inl h)
  · rcases le_total a.category b.category with hc | hc
    · exact Or.inl (Or.inr ⟨h, hc⟩)
    · exact Or.inr (Or.inr ⟨h.symm, hc⟩)
  · exact Or.inl (Or.inl h)

instance : IsTrans TopCat byScoreThenName := by
  constructor
  intro a b c hab hbc
  rcases hab with h | ⟨he, hn⟩
  · rcases hbc with h' | ⟨he', _⟩
    · exact Or.inl (h'.trans h)
    · exact Or.inl (he' ▸ h)
  · rcases hbc with h' | ⟨he', hn'⟩
    · exact Or.inl (he ▸ h')
    · exact Or.inr ⟨he.trans he', hn.trans hn'⟩

/-- Modelled from the spec: (§4.4) the Ranker sorts all categories
descending by score with alphabetical tie-break. -/
def rankCategories (l : List TopCat) : List TopCat :=
  l.insertionSort byScoreThenName

/-- Modelled from the spec: (§4.5) ordering of recommended skills by
number of qualifying categories containing the skill (descending), then
alphabetically. -/
def byCountThenName (count : String → Nat) (s t : String) : Prop :=
  count t < count s ∨ (count s = count t ∧ s ≤ t)

instance (count : String → Nat) : DecidableRel (byCountThenName count) := fun s t =>
  inferInstanceAs (Decidable (count t < count s ∨ (count s = count t ∧ s ≤ t)))

instance (count : String → Nat) : IsTotal String (byCountThenName count) := by
  constructor
  intro s t
  rcases lt_trichotomy (count s) (count t) with h | h | h
  · exact Or.inr (Or.inl h)
  · rcases le_total s t with hc | hc
    · exact Or.inl (Or.inr ⟨h, hc⟩)
    · exact Or.inr (Or.inr ⟨h.symm, hc⟩)
  · exact Or.inl (Or.inl h)

instance (count : String → Nat) : IsTrans String (byCountThenName count) := by
  constructor
  intro a b c hab hbc
  rcases hab with h | ⟨he, hn⟩
  · rcases hbc with h' | ⟨he', _⟩
    · exact Or.inl (h'.trans h)
    · exact Or.inl (he' ▸ h)
  · rcases hbc with h' | ⟨he', hn'⟩
    · exact Or.inl (he ▸ h')
    · exact Or.inr ⟨he.trans he', hn.trans hn'⟩

/-- Modelled from the spec: (§4.5) the fixed maximum count of
recommended skills. -/
def maxRecommendations : Nat := 10

/-- Modelled from the spec: (§3, §6) the candidate's skills after
normalization with duplicates collapsed. -/
def normSkills (skills : List String) : List String :=
  (skills.map normalize).dedup

/-- Modelled from the spec: (§4.2) the score of one category, from the
per-skill similarities of the candidate's normalized skills against the
category's centroid. The cosine-similarity computation itself is the
injected Embedding Provider capability, abstracted as `sim`. -/
def scoreFor (sim : String → String → ℚ) (norm : List String)
    (c : CategoryDefinition) : ℚ :=
  categoryScore (norm.map (fun s => sim s c.name))

/-- Modelled from the spec: (§4.5) the per-category set difference
`canonicalSkills(category) − candidateSkills` under case-insensitive,
normalized comparison. -/
def diffOf (c : CategoryDefinition) (norm : List String) : List String :=
  ((c.canonicalSkills.map normalize).filter (fun s => ¬ norm.contains s)).dedup

/-- Modelled from the spec: (§4.5) the categories whose strength is
Moderate or Strong. -/
def qualifying (sim : String → String → ℚ) (cats : List CategoryDefinition)
    (norm : List String) : List CategoryDefinition :=
  cats.filter (fun c => classify (scoreFor sim norm c) ≠ .Weak)

/-- Modelled from the spec: (§4.5) the deduplicated union of the
per-category differences across all qualifying categories. -/
def recPool (sim : String → String → ℚ) (cats : List CategoryDefinition)
    (norm : List String) : List String :=
  (((qualifying sim cats norm).map (fun c => diffOf c norm)).flatten).dedup

/-- Modelled from the spec: (§4.5) the number of qualifying categories in
which a skill appears (among the per-category differences). -/
def recCount (sim : String → String → ℚ) (cats : List CategoryDefinition)
    (norm : List String) (s : String) : Nat :=
  ((qualifying sim cats norm).filter (fun c => (diffOf c norm).contains s)).length

/-- Modelled from the spec: (§4.5) the Recommendation Engine — union of
qualifying-category differences, deduplicated, ordered by qualifying-count
descending then alphabetically, capped at `maxRecommendations`. -/
def recommend (sim : String → String → ℚ) (cats : List CategoryDefinition)
    (norm : List String) : List String :=
  ((recPool sim cats norm).insertionSort
    (byCountThenName (recCount sim cats norm))).take maxRecommendations

/-- Modelled from the spec: (§3) the assembled analysis result. -/
structure AnalysisResult where
  skills : List String
  categoryAnalysis : List CategoryScore
  topCategories : List TopCat
  recommendedSkills : List String
deriving Repr, DecidableEq

/-- Modelled from the spec: (§2, §4) the full analysis pipeline — skills
are normalized and deduplicated, each category is scored and classified,
categories are ranked, and recommendations are computed. -/
def analyze (sim : String → String → ℚ) (cats : List CategoryDefinition)
    (skills : List String) : AnalysisResult :=
  let norm := normSkills skills
  let scored := cats.map (fun c =>
    { category := c.name
      score := scoreFor sim norm c
      strength := classify (scoreFor sim norm c) : CategoryScore })
  { skills := norm
    categoryAnalysis := scored
    topCategories := rankCategories (scored.map (fun cs => ⟨cs.category, cs.score⟩))
    recommendedSkills := recommend sim cats norm }

/-- Modelled from the spec: (§7) the error kinds of the analysis request
surface that are relevant to validation. -/
inductive ApiError where
  | validationError
deriving Repr, DecidableEq

/-- Modelled from the spec: (§7, §8 Scenario 2) the analyze-skills request
handler. A missing skill list is rejected with a ValidationError before
any scoring; a present (possibly empty) list is analyzed — the spec's
Scenario 2 states that an empty list yields the all-Weak analysis with no
error, distinct from a ValidationError on a missing field entirely. -/
def analyzeRequest (sim : String → String → ℚ) (cats : List CategoryDefinition)
    (skillsField : Option (List String)) : Except ApiError AnalysisResult :=
  match skillsField with
  | none => .error .validationError
  | some skills => .ok (analyze sim cats skills)

/-- Modelled from the spec: (§6) one field of the serialized response
object. -/
inductive RespField where
  | catAnalysis (m : List (String × ℚ × Strength))
  | topCats (l : List TopCat)
  | recSkills (l : List String)
deriving Repr, DecidableEq

/-- Modelled from the spec: (§6) the serialized response object of a
successful analysis, a name-keyed object with fields `category_analysis`,
`top_categories` and `recommended_skills`. -/
def serializeResult (r : AnalysisResult) : List (String × RespField) :=
  [ ("category_analysis",
      .catAnalysis (r.categoryAnalysis.map (fun cs => (cs.category, cs.score, cs.strength)))),
    ("top_categories", .topCats r.topCategories),
    ("recommended_skills", .recSkills r.recommendedSkills) ]

/-! Client-side model, embedded from `src/client/app/page.tsx`. -/

/-- From `page.tsx`: the payload of a successful `/extract-skills` call
(`extractData.skills`, `extractData.organizations`). -/
structure ExtractData where
  skills : List String
  organizations : List String
deriving Repr, DecidableEq

/-- From `page.tsx` (interface `AnalysisResults`): the client's combined
result state. -/
structure ClientResults where
  skills : List String
  organizations : List String
  categoryAnalysis : List (String × ℚ × Strength)
  topCategories : List TopCat
  recommendedSkills : List String
deriving Repr, DecidableEq

/-- From `page.tsx` lines 138-144: the client combines the extract and
analyze responses by reading the fields `category_analysis`,
`top_categories` and `recommended_skills` of the analyze response. -/
def clientAssemble (ed : ExtractData) (ad : List (String × RespField)) :
    Option ClientResults :=
  match ad.lookup "category_analysis", ad.lookup "top_categories",
      ad.lookup "recommended_skills" with
  | some (.catAnalysis m), some (.topCats t), some (.recSkills r) =>
      some { skills := ed.skills
             organizations := ed.organizations
             categoryAnalysis := m
             topCategories := t
             recommendedSkills := r }
  | _, _, _ => none

/-- From `page.tsx`: the client's step indicator. -/
inductive UiStep where
  | upload
  | extracting
  | analyzing
  | complete
deriving Repr, DecidableEq

/-- From `page.tsx`: the pieces of React state that `handleUpload`
touches. -/
structure UiState where
  isUploading : Bool
  uploadSuccess : Bool
  analysisResults : Option ClientResults
  currentStep : UiStep
  error : Option String
deriving Repr, DecidableEq

/-- From `page.tsx` lines 149-153: the catch branch of `handleUpload` —
stop the spinner, record the message, return to the upload step. -/
def onCatch (s : UiState) (msg : String) : UiState :=
  { s with isUploading := false, error := some msg, currentStep := .upload }

/-- From `page.tsx` lines 135-144: the parsed payload of a successful
analyze-skills response, with the field names the client reads. -/
structure AnalyzePayload where
  category_analysis : List (String × ℚ × Strength)
  top_categories : List TopCat
  recommended_skills : List String
deriving Repr, DecidableEq

/-- From `page.tsx` lines 77-154: `handleUpload`. The three network steps
(upload-resume, extract-skills, analyze-skills) are modelled as `Except`
outcomes: a non-ok response and a thrown exception both surface as
`.error` (the code converts a non-ok response into a thrown `Error`).
State updates follow the source order. -/
def handleUpload (upload : Except String String)
    (extract : Except String ExtractData)
    (analyzeResp : Except String AnalyzePayload) : UiState :=
  let s : UiState :=
    { isUploading := true, uploadSuccess := false, analysisResults := none
      currentStep := .upload, error := none }
  let s := { s with currentStep := .extracting }
  match upload with
  | .error m => onCatch s m
  | .ok _text =>
    match extract with
    | .error m => onCatch s m
    | .ok ed =>
      let s := { s with currentStep := .analyzing }
      match analyzeResp with
      | .error m => onCatch s m
      | .ok ad =>
        { s with
            analysisResults := some
              { skills := ed.skills
                organizations := ed.organizations
                categoryAnalysis := ad.category_analysis
                topCategories := ad.top_categories
                recommendedSkills := ad.recommended_skills }
            isUploading := false, uploadSuccess := true
            currentStep := .complete }

/-! Concrete fixtures used by witnesses. -/

/-- A single-category vocabulary matching the spec's Scenario 1. -/
def devOpsCats : List CategoryDefinition :=
  [⟨"DevOps", ["docker", "kubernetes", "terraform", "ci/cd"]⟩]

/-- A constant similarity of 1 (perfect match everywhere). -/
def simOne : String → String → ℚ := fun _ _ => 1

/-- A constant similarity of 0 (no match anywhere). -/
def simZero : String → String → ℚ := fun _ _ => 0

/-- Candidate skills of the spec's Scenario 1 (before normalization). -/
def candSkills : List String := ["Docker", "Kubernetes"]

/-- The two tied categories of the spec's Scenario 3. -/
def scenarioCats : List TopCat := [⟨"Data", 62/100⟩, ⟨"Cloud", 62/100⟩]

/-! Theorems. -/

/-- C2: the Strength Classifier is a pure total function on scores in
[0,1]: Strong iff score ≥ 0.75, Moderate iff 0.5 ≤ score < 0.75, Weak iff
score < 0.5; and it is monotonic — for s1 ≤ s2 the strength rank of s1 is
at most the strength rank of s2. -/
theorem classify_bands_and_monotone :
    (∀ s : ℚ, 0 ≤ s → s ≤ 1 →
      ((classify s = .Strong ↔ 3/4 ≤ s) ∧
       (classify s = .Moderate ↔ 1/2 ≤ s ∧ s < 3/4) ∧
       (classify s = .Weak ↔ s < 1/2))) ∧
    (∀ s1 s2 : ℚ, 0 ≤ s1 → s2 ≤ 1 → s1 ≤ s2 →
      (classify s1).rank ≤ (classify s2).rank) := by
  constructor
  · intro s _ _
    unfold classify
    split_ifs with h1 h2
    · refine ⟨⟨fun _ => h1, fun _ => rfl⟩, ?_, ?_⟩
      · exact ⟨fun h => absurd h (by decide), fun ⟨_, hb⟩ => absurd h1 (by linarith)⟩
      · exact ⟨fun h => absurd h (by decide), fun hb => absurd h1 (by linarith)⟩
    · refine ⟨?_, ⟨fun _ => ⟨h2, lt_of_not_le h1⟩, fun _ => rfl⟩, ?_⟩
      · exact ⟨fun h => absurd h (by decide), fun hh => absurd hh h1⟩
      · exact ⟨fun h => absurd h (by decide), fun hh => absurd h2 (by linarith)⟩
    · refine ⟨?_, ?_, ⟨fun _ => lt_of_not_le h2, fun _ => rfl⟩⟩
      · exact ⟨fun h => absurd h (by decide), fun hh => absurd hh h1⟩
      · exact ⟨fun h => absurd h (by decide), fun hh => absurd hh.1 h2⟩
  · intro s1 s2 _ _ h
    unfold classify
    split_ifs with h1 h2 h3 h4 h5 h6 <;>
      simp only [Strength.rank] <;> first | omega | linarith

/-- Witness for C2 at concrete scores 0.6 ≤ 0.8. -/
theorem classify_bands_and_monotone_witness :
    classify (6/10) = .Moderate ∧
    (classify (6/10)).rank ≤ (classify (8/10)).rank :=
  ⟨(classify_bands_and_monotone.1 (6/10) (by norm_num) (by norm_num)).2.1.mpr
      ⟨by norm_num, by norm_num⟩,
   classify_bands_and_monotone.2 (6/10) (8/10) (by norm_num) (by norm_num)
      (by norm_num)⟩

/-- C3: the Ranker returns the full list of categories (a permutation of
its input), sorted descending by score; among categories with equal
scores and pairwise-distinct names, A precedes B iff A.name < B.name
lexicographically; in particular the two categories tied at 0.62 named
"Data" and "Cloud" are listed with "Cloud" first. -/
theorem ranker_sorted_tiebreak :
    (∀ l : List TopCat, List.Perm (rankCategories l) l) ∧
    (∀ l : List TopCat, (rankCategories l).Pairwise (fun a b => b.score ≤ a.score)) ∧
    (∀ l : List TopCat, (l.map TopCat.category).Nodup →
      ∀ i j (hi : i < (rankCategories l).length) (hj : j < (rankCategories l).length),
        ((rankCategories l).get ⟨i, hi⟩).score = ((rankCategories l).get ⟨j, hj⟩).score →
        (i < j ↔
          ((rankCategories l).get ⟨i, hi⟩).category <
            ((rankCategories l).get ⟨j, hj⟩).category)) ∧
    rankCategories scenarioCats = [⟨"Cloud", 62/100⟩, ⟨"Data", 62/100⟩] := by
  have hperm : ∀ l : List TopCat, List.Perm (rankCategories l) l := fun l =>
    List.perm_insertionSort byScoreThenName l
  have hsorted : ∀ l : List TopCat, (rankCategories l).Sorted byScoreThenName :=
    fun l => List.sorted_insertionSort byScoreThenName l
  refine ⟨hperm, ?_, ?_, ?_⟩
  · intro l
    exact (hsorted l).imp (fun h => by
      rcases h with h | ⟨he, _⟩
      · exact le_of_lt h
      · exact le_of_eq he.symm)
  · intro l hnd i j hi hj hscore
    have hndr : ((rankCategories l).map TopCat.category).Nodup :=
      (((hperm l).map TopCat.category).nodup_iff).mpr hnd
    have hinj : ∀ {i' j' : Fin (rankCategories l).length},
        ((rankCategories l).get i').category = ((rankCategories l).get j').category →
        i' = j' := by
      intro i' j' hcat
      have h2 : (⟨i'.1, by simp⟩ :
            Fin (((rankCategories l).map TopCat.category).length)) =
          ⟨j'.1, by simp⟩ :=
        List.nodup_iff_injective_get.mp hndr (by simpa using hcat)
      have h3 : i'.1 = j'.1 := by
        simpa using h2
      exact Fin.ext h3
    constructor
    · intro hij
      have hrel := (hsorted l).rel_get_of_lt
        (a := ⟨i, hi⟩) (b := ⟨j, hj⟩) (by exact hij)
      rcases hrel with h | ⟨_, hle⟩
      · exact absurd (hscore ▸ h) (lt_irrefl _)
      · refine lt_of_le_of_ne hle (fun hcat => ?_)
        have := hinj hcat
        simp only [Fin.mk.injEq] at this
        omega
    · intro hcat
      rcases lt_trichotomy i j with h | h | h
      · exact h
      · subst h
        exact absurd hcat (lt_irrefl _)
      · have hrel := (hsorted l).rel_get_of_lt
          (a := ⟨j, hj⟩) (b := ⟨i, hi⟩) (by exact h)
        rcases hrel with hlt | ⟨_, hle⟩
        · exact absurd (hscore ▸ hlt) (lt_irrefl _)
        · exact absurd (lt_of_lt_of_le hcat hle) (lt_irrefl _)
  · with_unfolding_all decide

/-- Witness for C3 at the Scenario 3 input: the Nodup hypothesis holds
for the two tied categories, and "Cloud" is listed before "Data". -/
theorem ranker_sorted_tiebreak_witness :
    (scenarioCats.map TopCat.category).Nodup ∧
    ((rankCategories scenarioCats).get
        ⟨0, by with_unfolding_all decide⟩).category <
      ((rankCategories scenarioCats).get
        ⟨1, by with_unfolding_all decide⟩).category :=
  ⟨by decide,
   (ranker_sorted_tiebreak.2.2.1 scenarioCats (by decide) 0 1
      (by with_unfolding_all decide) (by with_unfolding_all decide)
      (by with_unfolding_all decide)).mp (by omega)⟩

/-- C4: the category score is the mean of the top-3 clamped similarities
(there exist three clamped similarities, each at least every remaining
one, whose mean is the score), or the mean of all clamped similarities
when fewer than 3 are supplied; on the concrete input [1,0,0,0] it is
neither the single best match (1) nor the average over all skills (1/4). -/
theorem categoryScore_top3_mean :
    (∀ sims : List ℚ, sims ≠ [] → sims.length < 3 →
        categoryScore sims = (sims.map clamp01).sum / (sims.length : ℚ)) ∧
    (∀ sims : List ℚ, 3 ≤ sims.length →
        ∃ t rest : List ℚ, t.length = 3 ∧
          List.Perm (sims.map clamp01) (t ++ rest) ∧
          (∀ a ∈ t, ∀ b ∈ rest, b ≤ a) ∧
          categoryScore sims = t.sum / 3) ∧
    categoryScore [1, 0, 0, 0] ≠ 1 ∧
    categoryScore [1, 0, 0, 0] ≠ (1 + 0 + 0 + 0) / 4 := by
  refine ⟨?_, ?_, by with_unfolding_all decide, by with_unfolding_all decide⟩
  · intro sims hne hlt
    have hempty : sims.isEmpty = false := by
      simpa [List.isEmpty_iff] using hne
    have hperm : List.Perm ((sims.map clamp01).insertionSort qGe) (sims.map clamp01) :=
      List.perm_insertionSort qGe (sims.map clamp01)
    have hlen : ((sims.map clamp01).insertionSort qGe).length = sims.length := by
      rw [hperm.length_eq, List.length_map]
    have htake : ((sims.map clamp01).insertionSort qGe).take 3 =
        (sims.map clamp01).insertionSort qGe :=
      List.take_of_length_le (by omega)
    unfold categoryScore
    rw [hempty]
    simp only [Bool.false_eq_true, if_false, htake, hperm.sum_eq, hlen]
  · intro sims h3
    have hempty : sims.isEmpty = false := by
      cases sims with
      | nil => simp at h3
      | cons a l => rfl
    have hperm : List.Perm ((sims.map clamp01).insertionSort qGe) (sims.map clamp01) :=
      List.perm_insertionSort qGe (sims.map clamp01)
    have hlen : ((sims.map clamp01).insertionSort qGe).length = sims.length := by
      rw [hperm.length_eq, List.length_map]
    refine ⟨((sims.map clamp01).insertionSort qGe).take 3,
            ((sims.map clamp01).insertionSort qGe).drop 3, ?_, ?_, ?_, ?_⟩
    · rw [List.length_take]
      omega
    · rw [List.take_append_drop]
      exact hperm.symm
    · have hsorted : ((sims.map clamp01).insertionSort qGe).Pairwise qGe :=
        List.sorted_insertionSort qGe (sims.map clamp01)
      rw [← List.take_append_drop 3 ((sims.map clamp01).insertionSort qGe)] at hsorted
      exact (List.pairwise_append.mp hsorted).2.2
    · unfold categoryScore
      rw [hempty]
      have hlt : (((sims.map clamp01).insertionSort qGe).take 3).length = 3 := by
        rw [List.length_take]
        omega
      simp only [Bool.false_eq_true, if_false, hlt]
      norm_num

/-- Witness for C4: a one-element list takes the all-similarities mean,
and [1,0,0,0] has three top clamped similarities whose mean is the score. -/
theorem categoryScore_top3_mean_witness :
    (([(1:ℚ)/2] : List ℚ) ≠ [] ∧ ([(1:ℚ)/2] : List ℚ).length < 3 ∧
      categoryScore [(1:ℚ)/2] = ([(1:ℚ)/2].map clamp01).sum / (([(1:ℚ)/2] : List ℚ).length : ℚ)) ∧
    (3 ≤ ([(1:ℚ), 0, 0, 0] : List ℚ).length ∧
      ∃ t rest : List ℚ, t.length = 3 ∧
        List.Perm ([(1:ℚ), 0, 0, 0].map clamp01) (t ++ rest) ∧
        (∀ a ∈ t, ∀ b ∈ rest, b ≤ a) ∧
        categoryScore [(1:ℚ), 0, 0, 0] = t.sum / 3) :=
  ⟨⟨by decide, by decide, categoryScore_top3_mean.1 [(1:ℚ)/2] (by decide) (by decide)⟩,
   ⟨by decide, categoryScore_top3_mean.2.1 [(1:ℚ), 0, 0, 0] (by decide)⟩⟩

/-- The clamp sends every rational into [0,1]. -/
theorem clamp01_mem_unit (q : ℚ) : 0 ≤ clamp01 q ∧ clamp01 q ≤ 1 := by
  unfold clamp01
  split_ifs with h1 h2 <;> constructor <;> linarith

/-- Every category score lies in [0,1]. -/
theorem categoryScore_mem_unit (sims : List ℚ) :
    0 ≤ categoryScore sims ∧ categoryScore sims ≤ 1 := by
  unfold categoryScore
  by_cases hempty : sims.isEmpty
  · rw [if_pos hempty]
    norm_num
  · rw [if_neg hempty]
    have hmem : ∀ x ∈ ((sims.map clamp01).insertionSort qGe).take 3,
        0 ≤ x ∧ x ≤ 1 := by
      intro x hx
      have hx2 : x ∈ (sims.map clamp01).insertionSort qGe :=
        List.mem_of_mem_take hx
      have hx3 : x ∈ sims.map clamp01 :=
        (List.mem_insertionSort qGe).mp hx2
      obtain ⟨q, _, rfl⟩ := List.mem_map.mp hx3
      exact clamp01_mem_unit q
    have hsum0 : 0 ≤ (((sims.map clamp01).insertionSort qGe).take 3).sum :=
      List.sum_nonneg (fun x hx => (hmem x hx).1)
    have hlenpos : 0 < (((sims.map clamp01).insertionSort qGe).take 3).length := by
      have hne : sims ≠ [] := by
        simpa [List.isEmpty_iff] using hempty
      have : 0 < sims.length := List.length_pos.mpr hne
      have hlen : ((sims.map clamp01).insertionSort qGe).length = sims.length := by
        rw [(List.perm_insertionSort qGe (sims.map clamp01)).length_eq,
          List.length_map]
      rw [List.length_take]
      omega
    constructor
    · exact div_nonneg hsum0 (by positivity)
    · rw [div_le_one (by exact_mod_cast hlenpos)]
      have := List.sum_le_card_nsmul
        (((sims.map clamp01).insertionSort qGe).take 3) 1
        (fun x hx => (hmem x hx).2)
      simpa using this

/-- C5: every score in the `categoryAnalysis` of an analysis result lies
in [0,1]. -/
theorem analysis_scores_unit_interval :
    ∀ (sim : String → String → ℚ) (cats : List CategoryDefinition)
      (skills : List String),
      ∀ cs ∈ (analyze sim cats skills).categoryAnalysis,
        0 ≤ cs.score ∧ cs.score ≤ 1 := by
  intro sim cats skills cs hcs
  simp only [analyze, List.mem_map] at hcs
  obtain ⟨c, _, rfl⟩ := hcs
  exact categoryScore_mem_unit _

/-- Witness for C5 at Scenario 1 with a perfect similarity: the DevOps
category scores 1, which lies in [0,1]. -/
theorem analysis_scores_unit_interval_witness :
    (⟨"DevOps", 1, .Strong⟩ : CategoryScore) ∈
      (analyze simOne devOpsCats candSkills).categoryAnalysis ∧
    (0 ≤ (⟨"DevOps", 1, .Strong⟩ : CategoryScore).score ∧
      (⟨"DevOps", 1, .Strong⟩ : CategoryScore).score ≤ 1) :=
  ⟨by with_unfolding_all decide,
   analysis_scores_unit_interval simOne devOpsCats candSkills
     ⟨"DevOps", 1, .Strong⟩ (by with_unfolding_all decide)⟩

/-- Every recommended skill comes from some qualifying category's
difference list. -/
theorem mem_recommend_sound (sim : String → String → ℚ)
    (cats : List CategoryDefinition) (norm : List String) (r : String)
    (hr : r ∈ recommend sim cats norm) :
    ∃ c ∈ qualifying sim cats norm, r ∈ diffOf c norm := by
  have hr1 : r ∈ (recPool sim cats norm).insertionSort
      (byCountThenName (recCount sim cats norm)) :=
    List.mem_of_mem_take hr
  have hr2 : r ∈ recPool sim cats norm :=
    (List.mem_insertionSort _).mp hr1
  have hr3 : r ∈ ((qualifying sim cats norm).map (fun c => diffOf c norm)).flatten :=
    List.mem_dedup.mp hr2
  obtain ⟨l, hl, hrl⟩ := List.mem_flatten.mp hr3
  obtain ⟨c, hc, rfl⟩ := List.mem_map.mp hl
  exact ⟨c, hc, hrl⟩

/-- A skill in a category's difference list is not among the candidate's
normalized skills. -/
theorem mem_diffOf_not_mem_norm (c : CategoryDefinition) (norm : List String)
    (r : String) (hr : r ∈ diffOf c norm) : r ∉ norm := by
  have hr1 := List.mem_dedup.mp hr
  have hr2 := (List.mem_filter.mp hr1).2
  simpa using hr2

/-- C1: a recommended skill never coincides (under normalization) with
any of the candidate's own skills. -/
theorem recommended_disjoint :
    ∀ (sim : String → String → ℚ) (cats : List CategoryDefinition)
      (skills : List String),
      ∀ r ∈ (analyze sim cats skills).recommendedSkills,
        ∀ s ∈ skills, r ≠ normalize s := by
  intro sim cats skills r hr s hs heq
  have hr0 : r ∈ recommend sim cats (normSkills skills) := hr
  obtain ⟨c, _, hdiff⟩ := mem_recommend_sound sim cats (normSkills skills) r hr0
  have hnot : r ∉ normSkills skills := mem_diffOf_not_mem_norm c _ r hdiff
  have hin : normalize s ∈ normSkills skills :=
    List.mem_dedup.mpr (List.mem_map_of_mem normalize hs)
  exact hnot (heq ▸ hin)

/-- Witness for C1 at Scenario 1: "terraform" is recommended and differs
from the normalization of the candidate skill "Docker". -/
theorem recommended_disjoint_witness :
    "terraform" ∈ (analyze simOne devOpsCats candSkills).recommendedSkills ∧
    "Docker" ∈ candSkills ∧
    "terraform" ≠ normalize "Docker" :=
  ⟨by with_unfolding_all decide, by decide,
   recommended_disjoint simOne devOpsCats candSkills "terraform"
     (by with_unfolding_all decide) "Docker" (by decide)⟩

/-- The category analysis of a run, unfolded. -/
theorem analyze_categoryAnalysis (sim : String → String → ℚ)
    (cats : List CategoryDefinition) (skills : List String) :
    (analyze sim cats skills).categoryAnalysis =
      cats.map (fun c =>
        ⟨c.name, scoreFor sim (normSkills skills) c,
          classify (scoreFor sim (normSkills skills) c)⟩) := rfl

/-- The recommended skills of a run, unfolded. -/
theorem analyze_recommendedSkills (sim : String → String → ℚ)
    (cats : List CategoryDefinition) (skills : List String) :
    (analyze sim cats skills).recommendedSkills =
      recommend sim cats (normSkills skills) := rfl

/-- When every category classifies as Weak, no category qualifies and no
skill is recommended. -/
theorem recommend_eq_nil_of_all_weak (sim : String → String → ℚ)
    (cats : List CategoryDefinition) (skills : List String)
    (hall : ∀ c ∈ cats, classify (scoreFor sim (normSkills skills) c) = .Weak) :
    (analyze sim cats skills).recommendedSkills = [] := by
  have hq : qualifying sim cats (normSkills skills) = [] := by
    rw [qualifying, List.filter_eq_nil_iff]
    intro c hc
    simp only [decide_eq_true_eq, Decidable.not_not]
    exact hall c hc
  rw [analyze_recommendedSkills, recommend, recPool, hq]
  rfl

/-- C6: recommendedSkills is the deduplicated union of the qualifying
(Moderate-or-Strong) categories' difference lists, ordered by
qualifying-category count descending then alphabetically, capped at the
fixed maximum; it is complete up to the cap; and when every category is
Weak it is empty with no error. -/
theorem recommendation_engine_spec :
    ∀ (sim : String → String → ℚ) (cats : List CategoryDefinition)
      (skills : List String),
      ((∀ cs ∈ (analyze sim cats skills).categoryAnalysis, cs.strength = .Weak) →
        (analyze sim cats skills).recommendedSkills = []) ∧
      (analyze sim cats skills).recommendedSkills.length ≤ maxRecommendations ∧
      (analyze sim cats skills).recommendedSkills.Nodup ∧
      (∀ r ∈ (analyze sim cats skills).recommendedSkills,
        ∃ c ∈ cats, classify (scoreFor sim (normSkills skills) c) ≠ .Weak ∧
          r ∈ diffOf c (normSkills skills)) ∧
      (analyze sim cats skills).recommendedSkills.Pairwise
        (byCountThenName (recCount sim cats (normSkills skills))) ∧
      ((analyze sim cats skills).recommendedSkills.length < maxRecommendations →
        ∀ s ∈ recPool sim cats (normSkills skills),
          s ∈ (analyze sim cats skills).recommendedSkills) := by
  intro sim cats skills
  have hpool_nodup : (recPool sim cats (normSkills skills)).Nodup :=
    List.nodup_dedup _
  have hperm : List.Perm
      ((recPool sim cats (normSkills skills)).insertionSort
        (byCountThenName (recCount sim cats (normSkills skills))))
      (recPool sim cats (normSkills skills)) :=
    List.perm_insertionSort _ _
  refine ⟨?_, ?_, ?_, ?_, ?_, ?_⟩
  · intro hall
    refine recommend_eq_nil_of_all_weak sim cats skills (fun c hc => ?_)
    have hmem : (⟨c.name, scoreFor sim (normSkills skills) c,
        classify (scoreFor sim (normSkills skills) c)⟩ : CategoryScore) ∈
        (analyze sim cats skills).categoryAnalysis := by
      rw [analyze_categoryAnalysis]
      exact List.mem_map_of_mem _ hc
    exact hall _ hmem
  · rw [analyze_recommendedSkills, recommend]
    exact List.length_take_le _ _
  · rw [analyze_recommendedSkills, recommend]
    exact (hperm.nodup_iff.mpr hpool_nodup).sublist (List.take_sublist _ _)
  · intro r hr
    rw [analyze_recommendedSkills] at hr
    obtain ⟨c, hc, hdiff⟩ := mem_recommend_sound sim cats (normSkills skills) r hr
    rw [qualifying] at hc
    have hc2 := List.mem_filter.mp hc
    refine ⟨c, hc2.1, ?_, hdiff⟩
    simpa using hc2.2
  · rw [analyze_recommendedSkills, recommend]
    exact (List.sorted_insertionSort _ _).sublist (List.take_sublist _ _)
  · intro hlen s hs
    rw [analyze_recommendedSkills, recommend] at hlen ⊢
    rw [List.length_take] at hlen
    have hle : ((recPool sim cats (normSkills skills)).insertionSort
        (byCountThenName (recCount sim cats (normSkills skills)))).length ≤
        maxRecommendations := by
      omega
    rw [List.take_of_length_le hle]
    exact (List.mem_insertionSort _).mpr hs

/-- Witness for C6: an all-Weak run yields no recommendations, and at
Scenario 1 the recommended "terraform" comes from the qualifying DevOps
category's difference list. -/
theorem recommendation_engine_spec_witness :
    (analyze simZero devOpsCats ["python"]).recommendedSkills = [] ∧
    "terraform" ∈ (analyze simOne devOpsCats candSkills).recommendedSkills ∧
    (∃ c ∈ devOpsCats,
      classify (scoreFor simOne (normSkills candSkills) c) ≠ .Weak ∧
        "terraform" ∈ diffOf c (normSkills candSkills)) :=
  ⟨(recommendation_engine_spec simZero devOpsCats ["python"]).1
      (by with_unfolding_all decide),
   by with_unfolding_all decide,
   (recommendation_engine_spec simOne devOpsCats candSkills).2.2.2.1 "terraform"
      (by with_unfolding_all decide)⟩

/-- C8: with zero skills the analysis completes (the request is accepted,
not an error), every category score is 0, every strength is Weak, and no
skill is recommended. -/
theorem zero_skills_all_weak :
    ∀ (sim : String → String → ℚ) (cats : List CategoryDefinition),
      (analyzeRequest sim cats (some [])).isOk = true ∧
      (∀ cs ∈ (analyze sim cats []).categoryAnalysis,
        cs.score = 0 ∧ cs.strength = .Weak) ∧
      (analyze sim cats []).recommendedSkills = [] := by
  intro sim cats
  have hscore : ∀ c, scoreFor sim (normSkills []) c = 0 := fun c => rfl
  have hclass : classify 0 = .Weak := by
    unfold classify
    rw [if_neg (by norm_num), if_neg (by norm_num)]
  refine ⟨rfl, ?_, ?_⟩
  · intro cs hcs
    rw [analyze_categoryAnalysis] at hcs
    obtain ⟨c, _, rfl⟩ := List.mem_map.mp hcs
    exact ⟨hscore c, by rw [hscore c]; exact hclass⟩
  · exact recommend_eq_nil_of_all_weak sim cats []
      (fun c _ => by rw [hscore c]; exact hclass)

/-- Witness for C8 at the DevOps vocabulary: the request with an empty
skill list is accepted, and the DevOps category comes out with score 0
and strength Weak. -/
theorem zero_skills_all_weak_witness :
    (⟨"DevOps", 0, .Weak⟩ : CategoryScore) ∈
      (analyze simOne devOpsCats []).categoryAnalysis ∧
    ((⟨"DevOps", 0, .Weak⟩ : CategoryScore).score = 0 ∧
      (⟨"DevOps", 0, .Weak⟩ : CategoryScore).strength = .Weak) ∧
    (analyze simOne devOpsCats []).recommendedSkills = [] :=
  ⟨by with_unfolding_all decide,
   (zero_skills_all_weak simOne devOpsCats).2.1 ⟨"DevOps", 0, .Weak⟩
     (by with_unfolding_all decide),
   (zero_skills_all_weak simOne devOpsCats).2.2⟩

/-- Counterexample to C7 as stated: an analysis request that supplies an
empty (but present) skill list is not rejected with a ValidationError —
per the spec's Scenario 2 it is the valid all-Weak analysis. -/
theorem empty_list_not_validation_error :
    ¬ (analyzeRequest simZero devOpsCats (some []) =
        Except.error ApiError.validationError) := by
  intro h
  simp [analyzeRequest] at h

/-- C7 (amended): a request whose skill list is missing entirely is
rejected with a ValidationError before any scoring; a request that
supplies a (possibly empty) skill list is accepted and analyzed. -/
theorem missing_skills_validation_error :
    ∀ (sim : String → String → ℚ) (cats : List CategoryDefinition),
      analyzeRequest sim cats none = Except.error ApiError.validationError ∧
      ∀ skills : List String,
        analyzeRequest sim cats (some skills) =
          Except.ok (analyze sim cats skills) := by
  intro sim cats
  exact ⟨rfl, fun skills => rfl⟩

/-- C9: the serialized response of a successful analysis carries the
result under exactly the field names `category_analysis` (category →
{score, strength}), `top_categories` and `recommended_skills`, and the
client's assembly (which reads exactly these names) recovers the result's
three components. -/
theorem response_field_names :
    ∀ (r : AnalysisResult) (ed : ExtractData),
      (serializeResult r).map Prod.fst =
        ["category_analysis", "top_categories", "recommended_skills"] ∧
      clientAssemble ed (serializeResult r) = some
        { skills := ed.skills
          organizations := ed.organizations
          categoryAnalysis :=
            r.categoryAnalysis.map (fun cs => (cs.category, cs.score, cs.strength))
          topCategories := r.topCategories
          recommendedSkills := r.recommendedSkills } := by
  intro r ed
  exact ⟨rfl, rfl⟩

/-- C10: if any of the three pipeline steps in the client's
`handleUpload` fails, the run ends with `analysisResults` still null, a
non-null error message, `isUploading` false, and `currentStep` back at
upload — no partial results are exposed. -/
theorem handleUpload_error_resets :
    ∀ (u : Except String String) (e : Except String ExtractData)
      (a : Except String AnalyzePayload),
      ((∃ m, u = .error m) ∨ (∃ m, e = .error m) ∨ (∃ m, a = .error m)) →
      (handleUpload u e a).analysisResults = none ∧
      (handleUpload u e a).error ≠ none ∧
      (handleUpload u e a).isUploading = false ∧
      (handleUpload u e a).currentStep = .upload := by
  intro u e a h
  cases u with
  | error m => exact ⟨rfl, by simp [handleUpload, onCatch], rfl, rfl⟩
  | ok t =>
    cases e with
    | error m => exact ⟨rfl, by simp [handleUpload, onCatch], rfl, rfl⟩
    | ok ed =>
      cases a with
      | error m => exact ⟨rfl, by simp [handleUpload, onCatch], rfl, rfl⟩
      | ok ad =>
        rcases h with ⟨m, hm⟩ | ⟨m, hm⟩ | ⟨m, hm⟩ <;> simp at hm

/-- Witness for C10: a failed upload step (with the message the client
generates for a non-ok upload response) ends with no results, an error,
no spinner, and the upload step. -/
theorem handleUpload_error_resets_witness :
    (handleUpload (Except.error "Failed to upload resume")
        (Except.ok ⟨[], []⟩) (Except.ok ⟨[], [], []⟩)).analysisResults = none ∧
    (handleUpload (Except.error "Failed to upload resume")
        (Except.ok ⟨[], []⟩) (Except.ok ⟨[], [], []⟩)).error ≠ none ∧
    (handleUpload (Except.error "Failed to upload resume")
        (Except.ok ⟨[], []⟩) (Except.ok ⟨[], [], []⟩)).isUploading = false ∧
    (handleUpload (Except.error "Failed to upload resume")
        (Except.ok ⟨[], []⟩) (Except.ok ⟨[], [], []⟩)).currentStep = .upload :=
  handleUpload_error_resets _ _ _
    (Or.inl ⟨"Failed to upload resume", rfl⟩)

end FindAPath

